import Mathlib

/-!
Shallow embedding of the sigma-protocol library (packages `df` and `schnorr`):
the representation proof, the multiplication proof and the positive-number
proof, together with theorems settling the specification claims.

Go `big.Int` values are modelled as `Int` (exact, arbitrary precision).
Go slices are modelled as `List Int`; a `nil` pointer field that is only set
later is modelled as `Option Int`.  A Go function call that would abort at
run time (nil dereference, index out of range) lands in the error branch of
a total embedding returning `Except GoFail _`; a Go function that returns an
explicit `error` value uses the `errReturn` constructor instead.
-/

namespace Crypto

/-- Failure modes of the embedded Go code: `errReturn` is an explicit
non-nil `error` return value, `runtimeFault` is a run-time abort (nil
pointer dereference or slice index out of range), which in Go is not an
error return at all. -/
inductive GoFail where
  | errReturn (msg : String)
  | runtimeFault (msg : String)
deriving DecidableEq

/-- Holds exactly when the embedded call returned an explicit error value. -/
def isErrReturn {α : Type} : Except GoFail α → Bool
  | Except.error (GoFail.errReturn _) => true
  | _ => false

/-- Holds exactly when the embedded call aborted with a run-time fault. -/
def isRuntimeFault {α : Type} : Except GoFail α → Bool
  | Except.error (GoFail.runtimeFault _) => true
  | _ => false

/-- Modelled from the spec: the hidden-order group arithmetic
(`QRSpecialRSA` in package `df`) is an external collaborator exposing
modular multiply, exponentiate and invert.  It is kept as an abstract
bundle of operations on `Int`; no law is assumed. -/
structure QRSpecialRSAGroup where
  Mul : Int → Int → Int
  Exp : Int → Int → Int
  Inv : Int → Int

/-- Modelled from the spec: a `df.Receiver` holds the group parameters,
the bases `G`, `H` and the public commitment value. -/
structure Receiver where
  QRSpecialRSA : QRSpecialRSAGroup
  G : Int
  H : Int
  Commitment : Int

/-- Modelled from the spec: `ComputeCommit(value, randomness)` returns the
Pedersen-style commitment `G^value · H^randomness` in the group. -/
def Receiver.ComputeCommit (rcv : Receiver) (v r : Int) : Int :=
  rcv.QRSpecialRSA.Mul (rcv.QRSpecialRSA.Exp rcv.G v) (rcv.QRSpecialRSA.Exp rcv.H r)

/-- Modelled from the spec: a `df.Committer` holds the witness pair; only
the decommit message is needed by the embedded prover code. -/
structure Committer where
  a : Int
  r : Int

/-- Modelled from the spec: `GetDecommitMsg` returns the committed value
and the commitment randomness. -/
def Committer.GetDecommitMsg (c : Committer) : Int × Int := (c.a, c.r)

/-! ### Multiplication proof (src/df/multiplication_commitment.go) -/

structure MultiplicationProver where
  committer1 : Committer
  committer2 : Committer
  committer3 : Committer
  challengeSpaceSize : Nat
  y1 : Option Int
  s1 : Option Int
  y : Option Int
  s2 : Option Int
  s3 : Option Int

/-- Embeds `MultiplicationProver.GetProofData`: responses over the
integers, no modular reduction.  The maskings `y1, s1, y, s2, s3` are nil
before `GetProofRandomData` ran; using them then is a run-time fault. -/
def MultiplicationProver.GetProofData (p : MultiplicationProver) (challenge : Int) :
    Except GoFail (Int × Int × Int × Int × Int) :=
  match p.y1, p.y, p.s1, p.s2, p.s3 with
  | some y1, some y, some s1, some s2, some s3 =>
      let a1r1 := p.committer1.GetDecommitMsg
      let a2r2 := p.committer2.GetDecommitMsg
      let r3 := p.committer3.GetDecommitMsg.2
      let u1 := challenge * a1r1.1 + y1
      let u := challenge * a2r2.1 + y
      let v1 := challenge * a1r1.2 + s1
      let v2 := challenge * a2r2.2 + s2
      let v3 := challenge * (r3 - a2r2.1 * a1r1.2) + s3
      Except.ok (u1, u, v1, v2, v3)
  | _, _, _, _, _ => Except.error (GoFail.runtimeFault "nil big.Int dereference")

structure MultiplicationVerifier where
  receiver1 : Receiver
  receiver2 : Receiver
  receiver3 : Receiver
  challengeSpaceSize : Nat
  challenge : Option Int
  d1 : Option Int
  d2 : Option Int
  d3 : Option Int

def NewMultiplicationVerifier (receiver1 receiver2 receiver3 : Receiver)
    (challengeSpaceSize : Nat) : MultiplicationVerifier :=
  ⟨receiver1, receiver2, receiver3, challengeSpaceSize, none, none, none, none⟩

def MultiplicationVerifier.SetProofRandomData (v : MultiplicationVerifier)
    (d1 d2 d3 : Int) : MultiplicationVerifier :=
  { v with d1 := some d1, d2 := some d2, d3 := some d3 }

def MultiplicationVerifier.SetChallenge (v : MultiplicationVerifier)
    (challenge : Int) : MultiplicationVerifier :=
  { v with challenge := some challenge }

/-- Embeds `MultiplicationVerifier.Verify`.  The three comparisons mirror
the source; `H^v3` is computed through the absolute value and a group
inversion when `v3` is negative.  Unset challenge or proof random data is
a run-time fault (nil `big.Int` in the source). -/
def MultiplicationVerifier.Verify (vf : MultiplicationVerifier)
    (u1 u v1 v2 v3 : Int) : Except GoFail Bool :=
  match vf.challenge, vf.d1, vf.d2, vf.d3 with
  | some challenge, some d1, some d2, some d3 =>
      let left1 := vf.receiver1.ComputeCommit u1 v1
      let right1 := vf.receiver1.QRSpecialRSA.Mul d1
        (vf.receiver1.QRSpecialRSA.Exp vf.receiver1.Commitment challenge)
      let left2 := vf.receiver1.ComputeCommit u v2
      let right2 := vf.receiver1.QRSpecialRSA.Mul d2
        (vf.receiver1.QRSpecialRSA.Exp vf.receiver2.Commitment challenge)
      let tmp1 := vf.receiver3.QRSpecialRSA.Exp vf.receiver1.Commitment u
      let v3Abs : Int := |v3|
      let tmp2 := if v3Abs = v3 then vf.receiver3.QRSpecialRSA.Exp vf.receiver3.H v3
        else vf.receiver3.QRSpecialRSA.Inv (vf.receiver3.QRSpecialRSA.Exp vf.receiver3.H v3Abs)
      let left3 := vf.receiver3.QRSpecialRSA.Mul tmp1 tmp2
      let right3 := vf.receiver1.QRSpecialRSA.Mul d3
        (vf.receiver1.QRSpecialRSA.Exp vf.receiver3.Commitment challenge)
      Except.ok (decide (left1 = right1) && decide (left2 = right2) && decide (left3 = right3))
  | _, _, _, _ => Except.error (GoFail.runtimeFault "nil big.Int dereference")

/-- Signed exponentiation of `H`, following the claim: for a negative
exponent, exponentiate the absolute value and invert the result in the
group. -/
def hExpSigned (grp : QRSpecialRSAGroup) (H v3 : Int) : Int :=
  if v3 < 0 then grp.Inv (grp.Exp H |v3|) else grp.Exp H v3

/-- C1: for every challenge and response tuple the multiplication verifier
accepts if and only if the three group equations
`G^u1·H^v1 = d1·c1^challenge`, `G^u·H^v2 = d2·c2^challenge` and
`c1^u·H^v3 = d3·c3^challenge` hold, where `H^v3` for negative `v3` is
computed via the absolute value followed by a group inversion. -/
theorem multiplicationVerifier_verify_accepts_iff
    (grp : QRSpecialRSAGroup) (G H c1 c2 c3 : Int) (css : Nat)
    (challenge d1 d2 d3 u1 u v1 v2 v3 : Int) :
    (((NewMultiplicationVerifier ⟨grp, G, H, c1⟩ ⟨grp, G, H, c2⟩ ⟨grp, G, H, c3⟩
        css).SetProofRandomData d1 d2 d3).SetChallenge challenge).Verify u1 u v1 v2 v3
      = Except.ok true ↔
    (grp.Mul (grp.Exp G u1) (grp.Exp H v1) = grp.Mul d1 (grp.Exp c1 challenge) ∧
     grp.Mul (grp.Exp G u) (grp.Exp H v2) = grp.Mul d2 (grp.Exp c2 challenge) ∧
     grp.Mul (grp.Exp c1 u) (hExpSigned grp H v3) = grp.Mul d3 (grp.Exp c3 challenge)) := by
  simp only [NewMultiplicationVerifier, MultiplicationVerifier.SetProofRandomData,
    MultiplicationVerifier.SetChallenge, MultiplicationVerifier.Verify,
    Receiver.ComputeCommit, hExpSigned]
  rcases lt_or_le v3 0 with hneg | hpos
  · have habs : ¬ (|v3| = v3) := by
      intro h
      have := abs_nonneg v3
      omega
    rw [if_neg habs, if_pos hneg]
    simp [Bool.and_eq_true, decide_eq_true_eq, and_assoc]
  · have habs : |v3| = v3 := abs_of_nonneg hpos
    rw [if_pos habs, if_neg (not_lt.mpr hpos)]
    simp [Bool.and_eq_true, decide_eq_true_eq, and_assoc]

/-- C5: for every challenge, `MultiplicationProver.GetProofData` returns
`u1 = y1 + challenge·x1`, `u = y + challenge·x2`, `v1 = s1 + challenge·r1`,
`v2 = s2 + challenge·r2` and `v3 = s3 + challenge·(r3 − x2·r1)`, computed
over the integers with no modular reduction. -/
theorem multiplicationProver_getProofData_formulas
    (x1 r1 x2 r2 x3 r3 y1 y s1 s2 s3 challenge : Int) (css : Nat) :
    MultiplicationProver.GetProofData
      ⟨⟨x1, r1⟩, ⟨x2, r2⟩, ⟨x3, r3⟩, css, some y1, some s1, some y, some s2, some s3⟩
      challenge
    = Except.ok (y1 + challenge * x1, y + challenge * x2, s1 + challenge * r1,
        s2 + challenge * r2, s3 + challenge * (r3 - x2 * r1)) := by
  simp only [MultiplicationProver.GetProofData, Committer.GetDecommitMsg,
    Except.ok.injEq, Prod.mk.injEq]
  refine ⟨by ring, by ring, by ring, by ring, by ring⟩

/-! ### Representation proof (src/schnorr/dlog_knowledge.go) -/

/-- Modelled from the spec: the Schnorr group is an external collaborator
exposing the group operation `Mul`, exponentiation `Exp`, exponent addition
`Add` (mod the group order) and the order bound `Q`.  Kept abstract; no law
is assumed. -/
structure SchnorrGroup where
  Mul : Int → Int → Int
  Exp : Int → Int → Int
  Add : Int → Int → Int
  Q : Int

structure SchnorrProver where
  Group : SchnorrGroup
  secrets : List Int
  bases : List Int
  randomVals : List Int
  y : Int

/-- Embeds `schnorr.NewProver`: construction fails when the number of
secrets differs from the number of bases; `randomVals` starts nil. -/
def NewProver (group : SchnorrGroup) (secrets bases : List Int) (y : Int) :
    Except GoFail SchnorrProver :=
  if secrets.length ≠ bases.length then
    Except.error (GoFail.errReturn "number of secrets and representation bases shoud be the same")
  else
    Except.ok ⟨group, secrets, bases, [], y⟩

/-- Loop of `Prover.GetProofRandomData`: samples one masking per base from
the oracle `rnd` (call index, bound) and accumulates `t = ∏ gᵢ^{rᵢ}`. -/
def schnorrRandomLoop (grp : SchnorrGroup) (rnd : Nat → Int → Int) (Q : Int) :
    List Int → Nat → Int → List Int × Int
  | [], _, t => ([], t)
  | b :: bs, i, t =>
      let r := rnd i Q
      let res := schnorrRandomLoop grp rnd Q bs (i + 1) (grp.Mul t (grp.Exp b r))
      (r :: res.1, res.2)

/-- Embeds `Prover.GetProofRandomData`: retains the sampled maskings and
returns `t`. -/
def SchnorrProver.GetProofRandomData (p : SchnorrProver) (rnd : Nat → Int → Int) :
    SchnorrProver × Int :=
  let res := schnorrRandomLoop p.Group rnd p.Group.Q p.bases 0 1
  ({ p with randomVals := res.1 }, res.2)

/-- Loop of `Prover.GetProofData`: walks the bases and reads `secrets[i]`
and `randomVals[i]` in lockstep; exhausting either is an index-out-of-range
fault (the nil `randomVals` slice before `GetProofRandomData`). -/
def schnorrProofDataLoop (grp : SchnorrGroup) (challenge : Int) :
    List Int → List Int → List Int → Except GoFail (List Int)
  | [], _, _ => Except.ok []
  | _ :: bs, s :: ss, r :: rs =>
      match schnorrProofDataLoop grp challenge bs ss rs with
      | Except.error e => Except.error e
      | Except.ok tail => Except.ok (grp.Add (grp.Mul challenge s) r :: tail)
  | _ :: _, _, _ => Except.error (GoFail.runtimeFault "index out of range")

/-- Embeds `Prover.GetProofData`: `z_i = r_i + challenge·secrets[i]` under
the group exponent arithmetic. -/
def SchnorrProver.GetProofData (p : SchnorrProver) (challenge : Int) :
    Except GoFail (List Int) :=
  schnorrProofDataLoop p.Group challenge p.bases p.secrets p.randomVals

structure SchnorrVerifier where
  Group : SchnorrGroup
  bases : List Int
  proofRandomData : Option Int
  y : Option Int
  challenge : Option Int

def NewVerifier (group : SchnorrGroup) : SchnorrVerifier :=
  ⟨group, [], none, none, none⟩

def SchnorrVerifier.SetProofRandomData (v : SchnorrVerifier) (proofRandomData : Int)
    (bases : List Int) (y : Int) : SchnorrVerifier :=
  { v with proofRandomData := some proofRandomData, bases := bases, y := some y }

def SchnorrVerifier.SetChallenge (v : SchnorrVerifier) (challenge : Int) : SchnorrVerifier :=
  { v with challenge := some challenge }

/-- Loop of `Verifier.Verify`: accumulates `left = ∏ gᵢ^{zᵢ}` over the
bases, reading `proofData[i]` for every `i` below the number of bases; a
missing response element is an index-out-of-range fault. -/
def schnorrLeftLoop (grp : SchnorrGroup) : List Int → List Int → Int → Except GoFail Int
  | [], _, acc => Except.ok acc
  | _ :: _, [], _ => Except.error (GoFail.runtimeFault "index out of range")
  | b :: bs, z :: zs, acc => schnorrLeftLoop grp bs zs (grp.Mul acc (grp.Exp b z))

/-- Embeds `Verifier.Verify`: compares `∏ gᵢ^{zᵢ}` with
`y^challenge · t`; unset `y`, challenge or proof random data is a nil
dereference fault. -/
def SchnorrVerifier.Verify (v : SchnorrVerifier) (proofData : List Int) :
    Except GoFail Bool :=
  match schnorrLeftLoop v.Group v.bases proofData 1 with
  | Except.error e => Except.error e
  | Except.ok left =>
      match v.y, v.challenge, v.proofRandomData with
      | some y, some challenge, some t =>
          Except.ok (decide (left = v.Group.Mul (v.Group.Exp y challenge) t))
      | _, _, _ => Except.error (GoFail.runtimeFault "nil big.Int dereference")

lemma schnorrLeftLoop_ok (grp : SchnorrGroup) :
    ∀ (bs zs : List Int) (acc : Int), bs.length ≤ zs.length →
      schnorrLeftLoop grp bs zs acc =
        Except.ok ((bs.zip zs).foldl (fun a gz => grp.Mul a (grp.Exp gz.1 gz.2)) acc)
  | [], _, _, _ => rfl
  | _ :: bs, z :: zs, acc, h => by
      simp only [schnorrLeftLoop, List.zip_cons_cons, List.foldl_cons]
      exact schnorrLeftLoop_ok grp bs zs _ (by simpa using h)
  | _ :: _, [], _, h => by simp at h

lemma schnorrLeftLoop_fault (grp : SchnorrGroup) :
    ∀ (bs zs : List Int) (acc : Int), zs.length < bs.length →
      schnorrLeftLoop grp bs zs acc =
        Except.error (GoFail.runtimeFault "index out of range")
  | [], _, _, h => by simp at h
  | _ :: _, [], _, _ => rfl
  | _ :: bs, z :: zs, acc, h =>
      schnorrLeftLoop_fault grp bs zs _ (by simpa using h)

/-- C6: for a response vector `z` whose length equals the number of bases,
the representation-proof verifier returns a boolean (never a fault), and
returns `true` if and only if `∏ gᵢ^{zᵢ} = t·y^{challenge}` in the group. -/
theorem schnorrVerifier_verify_accepts_iff (grp : SchnorrGroup) (bases z : List Int)
    (t y challenge : Int) (hlen : z.length = bases.length)
    (hcomm : ∀ a b : Int, grp.Mul a b = grp.Mul b a) :
    (∃ res : Bool, (((NewVerifier grp).SetProofRandomData t bases y).SetChallenge
        challenge).Verify z = Except.ok res) ∧
    ((((NewVerifier grp).SetProofRandomData t bases y).SetChallenge challenge).Verify z
        = Except.ok true ↔
      (bases.zip z).foldl (fun acc gz => grp.Mul acc (grp.Exp gz.1 gz.2)) 1
        = grp.Mul t (grp.Exp y challenge)) := by
  have hloop := schnorrLeftLoop_ok grp bases z 1 (le_of_eq hlen.symm)
  constructor
  · refine ⟨decide ((bases.zip z).foldl (fun acc gz => grp.Mul acc (grp.Exp gz.1 gz.2)) 1
      = grp.Mul (grp.Exp y challenge) t), ?_⟩
    simp only [NewVerifier, SchnorrVerifier.SetProofRandomData,
      SchnorrVerifier.SetChallenge, SchnorrVerifier.Verify, hloop]
  · simp only [NewVerifier, SchnorrVerifier.SetProofRandomData,
      SchnorrVerifier.SetChallenge, SchnorrVerifier.Verify, hloop,
      Except.ok.injEq, decide_eq_true_eq]
    rw [hcomm t (grp.Exp y challenge)]

/-- C9: `Verifier.Verify` performs no length check: whenever the response
vector is strictly shorter than the bases vector, the read of
`proofData[i]` is out of range and the call lands in the embedding's
fault branch; in particular it does not return `false` (or any boolean). -/
theorem schnorrVerifier_verify_missing_length_check (grp : SchnorrGroup)
    (bases z : List Int) (t y challenge : Int) (hshort : z.length < bases.length) :
    (((NewVerifier grp).SetProofRandomData t bases y).SetChallenge challenge).Verify z
      = Except.error (GoFail.runtimeFault "index out of range") ∧
    ∀ res : Bool, (((NewVerifier grp).SetProofRandomData t bases y).SetChallenge
        challenge).Verify z ≠ Except.ok res := by
  have hloop := schnorrLeftLoop_fault grp bases z 1 hshort
  refine ⟨?_, ?_⟩
  · simp only [NewVerifier, SchnorrVerifier.SetProofRandomData,
      SchnorrVerifier.SetChallenge, SchnorrVerifier.Verify, hloop]
  · intro res
    simp only [NewVerifier, SchnorrVerifier.SetProofRandomData,
      SchnorrVerifier.SetChallenge, SchnorrVerifier.Verify, hloop]
    intro hcontra
    exact Except.noConfusion hcontra

/-! ### Concrete fixtures used by witnesses and counterexamples -/

/-- Concrete hidden-order-group stand-in for witnesses: arithmetic mod 11. -/
def grpQ : QRSpecialRSAGroup :=
  ⟨fun a b => a * b % 11, fun a b => a ^ b.toNat % 11, fun a => a⟩

/-- Concrete receiver built over `grpQ`. -/
def rcvA : Receiver := ⟨grpQ, 2, 3, 4⟩

/-- Concrete Schnorr group stand-in for witnesses: arithmetic mod 11,
exponents mod 10. -/
def grpS : SchnorrGroup :=
  ⟨fun a b => a * b % 11, fun a b => a ^ b.toNat % 11, fun a b => (a + b) % 10, 10⟩

theorem schnorrVerifier_verify_accepts_iff_witness :
    (((NewVerifier grpS).SetProofRandomData 2 [2] 1).SetChallenge 0).Verify [1]
      = Except.ok true :=
  (schnorrVerifier_verify_accepts_iff grpS [2] [1] 2 1 0 (by decide)
    (fun a b => by show a * b % 11 = b * a % 11; rw [Int.mul_comm])).2.mpr (by decide)

theorem schnorrVerifier_verify_missing_length_check_witness :
    (((NewVerifier grpS).SetProofRandomData 2 [2, 3] 1).SetChallenge 0).Verify [1]
      = Except.error (GoFail.runtimeFault "index out of range") :=
  (schnorrVerifier_verify_missing_length_check grpS [2, 3] [1] 2 1 0 (by decide)).1

/-- C7 counterexample: calling `GetProofData` before `GetProofRandomData`
on a representation prover, and calling `Verify` on a multiplication
verifier before its challenge and proof random data are set, are not
rejected with a usage-error value: the calls abort with a run-time fault
(index out of range on the nil `randomVals` slice, nil `big.Int`
dereference), as the Go signatures of these operations carry no error
return at all. -/
theorem outOfOrder_no_usage_error_cex :
    isErrReturn ((⟨grpS, [3], [2], [], 5⟩ : SchnorrProver).GetProofData 1) = false ∧
    isRuntimeFault ((⟨grpS, [3], [2], [], 5⟩ : SchnorrProver).GetProofData 1) = true ∧
    isErrReturn ((NewMultiplicationVerifier rcvA rcvA rcvA 4).Verify 1 1 1 1 1) = false ∧
    isRuntimeFault ((NewMultiplicationVerifier rcvA rcvA rcvA 4).Verify 1 1 1 1 1) = true :=
  ⟨rfl, rfl, rfl, rfl⟩

/-- C7 (amended): calling `GetProofData` before `GetProofRandomData`, or
`MultiplicationVerifier.Verify` before challenge and proof random data are
set, never returns a silently miscomputed normal result: the call aborts
with a run-time fault, the error branch of the total embedding. -/
theorem outOfOrder_faults (grp : SchnorrGroup) (secrets bases : List Int)
    (y challenge : Int) (hb : bases ≠ [])
    (receiver1 receiver2 receiver3 : Receiver) (css : Nat) (u1 u v1 v2 v3 : Int) :
    isRuntimeFault ((⟨grp, secrets, bases, [], y⟩ : SchnorrProver).GetProofData challenge)
      = true ∧
    isRuntimeFault ((NewMultiplicationVerifier receiver1 receiver2 receiver3 css).Verify
      u1 u v1 v2 v3) = true := by
  constructor
  · rcases bases with _ | ⟨b, bs⟩
    · exact absurd rfl hb
    · rcases secrets with _ | ⟨s, ss⟩ <;> rfl
  · rfl

theorem outOfOrder_faults_witness :
    isRuntimeFault ((⟨grpS, [3], [2], [], 5⟩ : SchnorrProver).GetProofData 1) = true ∧
    isRuntimeFault ((NewMultiplicationVerifier rcvA rcvA rcvA 4).Verify 1 1 1 1 1) = true :=
  outOfOrder_faults grpS [3] [2] 5 1 (by decide) rcvA rcvA rcvA 4 1 1 1 1 1

/-! ### Positive-number proof (src/df/positive_commitment.go) -/

/-- Modelled from the spec: the external square sub-proof prover is an
opaque three-move protocol; the two proof-random-data elements it returns
and its three-element response to a challenge are abstract data. -/
structure SquareProver where
  proofRandomData1 : Int
  proofRandomData2 : Int
  proofDataFn : Int → Int × Int × Int

/-- Modelled from the spec: the external square sub-proof verifier holds
the challenge and the proof random data it was handed, and an abstract
decision function on the three response elements. -/
structure SquareVerifier where
  challenge : Option Int
  proofRandomData : Option (Int × Int)
  verifyFn : Option Int → Option (Int × Int) → Int → Int → Int → Bool

/-- Modelled from the spec: hands the square verifier its two
proof-random-data elements. -/
def SquareVerifier.SetProofRandomData (sv : SquareVerifier) (a b : Int) : SquareVerifier :=
  { sv with proofRandomData := some (a, b) }

/-- Modelled from the spec: hands the square verifier its challenge. -/
def SquareVerifier.SetChallenge (sv : SquareVerifier) (challenge : Int) : SquareVerifier :=
  { sv with challenge := some challenge }

/-- Modelled from the spec: the square verifier's decision on a
three-element response, given its stored challenge and random data. -/
def SquareVerifier.Verify (sv : SquareVerifier) (s1 s21 s22 : Int) : Bool :=
  sv.verifyFn sv.challenge sv.proofRandomData s1 s21 s22

/-- Loop of `getCommitRandoms`: every index but the last draws a magnitude
from the oracle `rnd` (call index, current boundary) and subtracts it from
the boundary; the last index receives the remaining boundary. -/
def commitRandomsLoop (rnd : Nat → Int → Int) : Nat → Int → Nat → List Int
  | _, _, 0 => []
  | _, boundary, 1 => [boundary]
  | idx, boundary, n + 2 =>
      let d := rnd idx boundary
      d :: commitRandomsLoop rnd (idx + 1) (boundary - d) (n + 1)

/-- Embeds `getCommitRandoms`: draws magnitudes against the running
boundary started at `|r|` (the sampler `common.GetRandomInt` is external
and modelled from the spec as the oracle `rnd`), gives the last share the
remaining boundary, and negates every share when `r` is negative. -/
def getCommitRandoms (r : Int) (nRoots : Nat) (rnd : Nat → Int → Int) : List Int :=
  let mags := commitRandomsLoop rnd 0 |r| nRoots
  if |r| ≠ r then mags.map (fun x => -x) else mags

structure PositiveProver where
  squareProvers : List SquareProver
  smallCommitments : List Int
  bigCommitments : List Int

/-- Flattening of the square provers' proof random data: sub-proof `i`
contributes positions `2i` and `2i+1`. -/
def flattenPairs : List SquareProver → List Int
  | [] => []
  | sp :: rest => sp.proofRandomData1 :: sp.proofRandomData2 :: flattenPairs rest

/-- Embeds `PositiveProver.GetProofRandomData`. -/
def PositiveProver.GetProofRandomData (p : PositiveProver) : List Int :=
  flattenPairs p.squareProvers

/-- Loop of `PositiveProver.GetProofData`: sub-proof `i` is driven with
`challenges[i]` and contributes positions `3i`, `3i+1`, `3i+2`; a missing
challenge is an index-out-of-range fault. -/
def posProofDataLoop : List SquareProver → List Int → Except GoFail (List Int)
  | [], _ => Except.ok []
  | _ :: _, [] => Except.error (GoFail.runtimeFault "index out of range")
  | sp :: rest, ch :: chs =>
      match posProofDataLoop rest chs with
      | Except.error e => Except.error e
      | Except.ok tail =>
          let t := sp.proofDataFn ch
          Except.ok (t.1 :: t.2.1 :: t.2.2 :: tail)

/-- Embeds `PositiveProver.GetProofData`. -/
def PositiveProver.GetProofData (p : PositiveProver) (challenges : List Int) :
    Except GoFail (List Int) :=
  posProofDataLoop p.squareProvers challenges

structure PositiveVerifier where
  squareVerifiers : List SquareVerifier

/-- Loop of the consistency check in `NewPositiveVerifier`: multiplies the
first `nRoots` big commitments into the accumulator; a missing element is
an index-out-of-range fault. -/
def productLoop (grp : QRSpecialRSAGroup) : Nat → List Int → Int → Except GoFail Int
  | 0, _, acc => Except.ok acc
  | _ + 1, [], _ => Except.error (GoFail.runtimeFault "index out of range")
  | n + 1, b :: bs, acc => productLoop grp n bs (grp.Mul acc b)

/-- Embeds `NewPositiveVerifier`.  The external `NewReceiverFromParams`
and `NewSquareVerifier` are modelled from the spec: the rebuilt receivers
share the caller's group parameters with the commitment replaced, and the
square-verifier constructor `newSquareVerifier` is an abstract parameter
that always succeeds.  Commitment lists of mismatched lengths, which in Go
would fault or hand a nil receiver to the external constructor, are
modelled as a run-time fault. -/
def NewPositiveVerifier (newSquareVerifier : Receiver → Int → Nat → SquareVerifier)
    (receiver : Receiver) (receiverCommitment : Int)
    (smallCommitments bigCommitments : List Int) (challengeSpaceSize : Nat) :
    Except GoFail PositiveVerifier :=
  let nRoots := smallCommitments.length
  match productLoop receiver.QRSpecialRSA nRoots bigCommitments 1 with
  | Except.error e => Except.error e
  | Except.ok check =>
      if receiverCommitment ≠ check then
        Except.error (GoFail.errReturn "squareProvers are not properly instantiated")
      else if bigCommitments.length = nRoots then
        let receivers := bigCommitments.map (fun comm => { receiver with Commitment := comm })
        let svs := (receivers.zip smallCommitments).map
          (fun rc => newSquareVerifier rc.1 rc.2 challengeSpaceSize)
        Except.ok { squareVerifiers := svs }
      else Except.error (GoFail.runtimeFault "index out of range")

/-- Loop of `PositiveVerifier.SetProofRandomData`: verifier `i` receives
elements `2i` and `2i+1`. -/
def setPrdLoop (prd : List Int) : Nat → List SquareVerifier → Except GoFail (List SquareVerifier)
  | _, [] => Except.ok []
  | i, sv :: rest =>
      match prd[2 * i]?, prd[2 * i + 1]? with
      | some a, some b =>
          match setPrdLoop prd (i + 1) rest with
          | Except.error e => Except.error e
          | Except.ok rest2 => Except.ok (sv.SetProofRandomData a b :: rest2)
      | _, _ => Except.error (GoFail.runtimeFault "index out of range")

/-- Embeds `PositiveVerifier.SetProofRandomData`: returns the post-state
and the returned error.  A slice whose length is not 8 is rejected before
any sub-verifier is touched, leaving the state unchanged. -/
def PositiveVerifier.SetProofRandomData (v : PositiveVerifier)
    (proofRandomData : List Int) : PositiveVerifier × Option GoFail :=
  if proofRandomData.length ≠ 8 then
    (v, some (GoFail.errReturn "the length of proofRandomData is not correct"))
  else
    match setPrdLoop proofRandomData 0 v.squareVerifiers with
    | Except.ok svs => ({ squareVerifiers := svs }, none)
    | Except.error e => (v, some e)

/-- Loop of `PositiveVerifier.Verify`, instrumented with the evaluation
trace.  Go's `verified = verified && verifier.Verify(...)` short-circuits:
once `verified` is false the remaining sub-verifiers are not invoked and
their argument reads are skipped.  Each performed invocation is recorded
as `(index, arguments)`. -/
def pvLoop (pd : List Int) : Nat → List SquareVerifier → Bool →
    Except GoFail Bool × List (Nat × Int × Int × Int)
  | _, [], verified => (Except.ok verified, [])
  | i, sv :: rest, verified =>
      if verified then
        match pd[3 * i]?, pd[3 * i + 1]?, pd[3 * i + 2]? with
        | some a, some b, some c =>
            let res := pvLoop pd (i + 1) rest (sv.Verify a b c)
            (res.1, (i, a, b, c) :: res.2)
        | _, _, _ => (Except.error (GoFail.runtimeFault "index out of range"), [])
      else pvLoop pd (i + 1) rest false

/-- Embeds `PositiveVerifier.Verify` together with its evaluation trace:
a proof-data slice whose length is not 12 yields `false` immediately;
otherwise the sub-verifications are folded with a short-circuit
conjunction. -/
def PositiveVerifier.VerifyTrace (v : PositiveVerifier) (proofData : List Int) :
    Except GoFail Bool × List (Nat × Int × Int × Int) :=
  if proofData.length ≠ 12 then (Except.ok false, [])
  else pvLoop proofData 0 v.squareVerifiers true

/-- Result of `PositiveVerifier.Verify` (the trace discarded). -/
def PositiveVerifier.Verify (v : PositiveVerifier) (proofData : List Int) :
    Except GoFail Bool :=
  (v.VerifyTrace proofData).1

/-- The sub-verifier placed at flat position `n` accepts its response
triple `proofData[3n], proofData[3n+1], proofData[3n+2]`. -/
def svAcceptsAt (pd : List Int) (n : Nat) (sv : SquareVerifier) : Prop :=
  ∃ a b c, pd[3 * n]? = some a ∧ pd[3 * n + 1]? = some b ∧
    pd[3 * n + 2]? = some c ∧ sv.Verify a b c = true

/-! ### Helper lemmas for the positive-number proof -/

lemma sum_map_neg (l : List Int) : (l.map (fun x => -x)).sum = - l.sum := by
  induction l with
  | nil => simp
  | cons a l ih => simp [ih]; ring

lemma commitRandomsLoop_length (rnd : Nat → Int → Int) :
    ∀ (idx : Nat) (boundary : Int) (n : Nat),
      (commitRandomsLoop rnd idx boundary n).length = n
  | _, _, 0 => rfl
  | _, _, 1 => rfl
  | idx, boundary, n + 2 => by
      simp only [commitRandomsLoop, List.length_cons]
      rw [commitRandomsLoop_length rnd (idx + 1) _ (n + 1)]

lemma commitRandomsLoop_sum (rnd : Nat → Int → Int) :
    ∀ (idx : Nat) (boundary : Int) (n : Nat), 1 ≤ n →
      (commitRandomsLoop rnd idx boundary n).sum = boundary
  | _, _, 0, h => absurd h (by omega)
  | _, boundary, 1, _ => by simp [commitRandomsLoop]
  | idx, boundary, n + 2, _ => by
      simp only [commitRandomsLoop, List.sum_cons]
      rw [commitRandomsLoop_sum rnd (idx + 1) (boundary - rnd idx boundary) (n + 1) (by omega)]
      ring

lemma commitRandomsLoop_nonneg (rnd : Nat → Int → Int)
    (hdraw : ∀ i b, 0 ≤ b → 0 ≤ rnd i b ∧ rnd i b ≤ b) :
    ∀ (idx : Nat) (boundary : Int) (n : Nat), 0 ≤ boundary →
      ∀ x ∈ commitRandomsLoop rnd idx boundary n, 0 ≤ x
  | _, _, 0, _ => by simp [commitRandomsLoop]
  | _, boundary, 1, hb => by
      intro x hx
      simp only [commitRandomsLoop, List.mem_singleton] at hx
      omega
  | idx, boundary, n + 2, hb => by
      intro x hx
      simp only [commitRandomsLoop, List.mem_cons] at hx
      rcases hx with rfl | hx
      · exact (hdraw idx boundary hb).1
      · have hb2 : (0 : Int) ≤ boundary - rnd idx boundary := by
          have := (hdraw idx boundary hb).2
          omega
        exact commitRandomsLoop_nonneg rnd hdraw (idx + 1)
          (boundary - rnd idx boundary) (n + 1) hb2 x hx

lemma productLoop_ok (grp : QRSpecialRSAGroup) :
    ∀ (bs : List Int) (acc : Int),
      productLoop grp bs.length bs acc = Except.ok (bs.foldl grp.Mul acc)
  | [], _ => rfl
  | b :: bs, acc => by
      simp only [List.length_cons, productLoop, List.foldl_cons]
      exact productLoop_ok grp bs (grp.Mul acc b)

lemma setPrdLoop_ok (prd : List Int) :
    ∀ (svs : List SquareVerifier) (i : Nat),
      2 * (i + svs.length) ≤ prd.length →
      ∃ svs2, setPrdLoop prd i svs = Except.ok svs2 ∧ svs2.length = svs.length ∧
        ∀ j sv, svs[j]? = some sv →
          ∃ a b, prd[2 * (i + j)]? = some a ∧ prd[2 * (i + j) + 1]? = some b ∧
            svs2[j]? = some (sv.SetProofRandomData a b)
  | [], _, _ => ⟨[], rfl, rfl, by intro j sv hj; simp at hj⟩
  | sv :: rest, i, h => by
      have hlen : 2 * (i + (rest.length + 1)) ≤ prd.length := by
        simpa using h
      have h0 : 2 * i < prd.length := by omega
      have h1 : 2 * i + 1 < prd.length := by omega
      have ha : prd[2 * i]? = some (prd.get ⟨2 * i, h0⟩) := by
        rw [List.getElem?_eq_getElem h0]; rfl
      have hb : prd[2 * i + 1]? = some (prd.get ⟨2 * i + 1, h1⟩) := by
        rw [List.getElem?_eq_getElem h1]; rfl
      obtain ⟨rest2, hrest, hlen2, hidx⟩ := setPrdLoop_ok prd rest (i + 1) (by omega)
      refine ⟨sv.SetProofRandomData (prd.get ⟨2 * i, h0⟩) (prd.get ⟨2 * i + 1, h1⟩) :: rest2,
        ?_, by simp [hlen2], ?_⟩
      · simp only [setPrdLoop, ha, hb, hrest]
      · intro j sv2 hj
        rcases j with _ | j
        · simp only [List.getElem?_cons_zero, Option.some.injEq] at hj
          subst hj
          exact ⟨prd.get ⟨2 * i, h0⟩, prd.get ⟨2 * i + 1, h1⟩,
            by simp, by simp, by simp⟩
        · simp only [List.getElem?_cons_succ] at hj
          obtain ⟨a2, b2, hpa, hpb, hj2⟩ := hidx j sv2 hj
          have hsh : i + (j + 1) = i + 1 + j := by omega
          refine ⟨a2, b2, ?_, ?_, by simpa using hj2⟩
          · rw [hsh]; exact hpa
          · rw [hsh]; exact hpb

/-! ### Fixtures for witnesses and counterexamples -/

/-- Square verifier fixture that accepts every response. -/
def svT : SquareVerifier := ⟨none, none, fun _ _ _ _ _ => true⟩

/-- Square verifier fixture that rejects every response. -/
def svF : SquareVerifier := ⟨none, none, fun _ _ _ _ _ => false⟩

/-- Positive verifier fixture with four accepting sub-verifiers. -/
def v4T : PositiveVerifier := ⟨[svT, svT, svT, svT]⟩

/-- Twelve-element proof-data fixture. -/
def pd12 : List Int := [0, 1, 2, 3, 4, 5, 6, 7, 8, 9, 10, 11]

/-! ### Claims C3, C4, C10 -/

/-- C3: for every integer `r` of either sign and every `nRoots ≥ 1`, with
the external sampler `common.GetRandomInt` modelled from the spec as an
oracle returning a nonnegative value at most the bound,
`getCommitRandoms` returns exactly `nRoots` integers whose exact integer
sum is `r`, each share sign-consistent with `r` (nonnegative when
`r ≥ 0`, nonpositive when `r < 0`, via negating all drawn magnitudes). -/
theorem getCommitRandoms_spec (r : Int) (nRoots : Nat) (rnd : Nat → Int → Int)
    (hn : 1 ≤ nRoots) (hdraw : ∀ i b, 0 ≤ b → 0 ≤ rnd i b ∧ rnd i b ≤ b) :
    (getCommitRandoms r nRoots rnd).length = nRoots ∧
    (getCommitRandoms r nRoots rnd).sum = r ∧
    ∀ x ∈ getCommitRandoms r nRoots rnd, (0 ≤ r → 0 ≤ x) ∧ (r < 0 → x ≤ 0) := by
  have hmagsum := commitRandomsLoop_sum rnd 0 |r| nRoots hn
  have hmaglen := commitRandomsLoop_length rnd 0 |r| nRoots
  have hmagpos := commitRandomsLoop_nonneg rnd hdraw 0 |r| nRoots (abs_nonneg r)
  unfold getCommitRandoms
  rcases le_or_lt 0 r with hr | hr
  · have habs : |r| = r := abs_of_nonneg hr
    rw [if_neg (not_ne_iff.mpr habs)]
    refine ⟨hmaglen, by rw [hmagsum, habs], ?_⟩
    intro x hx
    exact ⟨fun _ => hmagpos x hx, fun hneg => absurd hr (by omega)⟩
  · have habs : |r| ≠ r := by
      have := abs_nonneg r
      omega
    rw [if_pos habs]
    refine ⟨by rw [List.length_map, hmaglen], ?_, ?_⟩
    · rw [sum_map_neg, hmagsum]
      have : |r| = -r := abs_of_neg hr
      omega
    · intro x hx
      rw [List.mem_map] at hx
      obtain ⟨y, hy, rfl⟩ := hx
      have hy0 := hmagpos y hy
      exact ⟨fun hge => absurd hr (by omega), fun _ => by omega⟩

theorem getCommitRandoms_spec_witness :
    (getCommitRandoms (-5) 4 (fun _ _ => 0)).length = 4 ∧
    (getCommitRandoms (-5) 4 (fun _ _ => 0)).sum = -5 :=
  ⟨(getCommitRandoms_spec (-5) 4 (fun _ _ => 0) (by omega)
      (fun _ b hb => ⟨le_refl 0, hb⟩)).1,
   (getCommitRandoms_spec (-5) 4 (fun _ _ => 0) (by omega)
      (fun _ b hb => ⟨le_refl 0, hb⟩)).2.1⟩

/-- C4: `NewPositiveVerifier` (with the external receiver and
square-verifier constructors modelled from the spec) computes the group
product of the supplied big sub-commitments and returns an error exactly
when that product differs from the supplied outer commitment; when they
agree, construction proceeds to build one square sub-verifier per
commitment pair. -/
theorem newPositiveVerifier_product_check
    (nsv : Receiver → Int → Nat → SquareVerifier) (receiver : Receiver)
    (receiverCommitment : Int) (small big : List Int) (css : Nat)
    (hlen : big.length = small.length) :
    ((∃ pv, NewPositiveVerifier nsv receiver receiverCommitment small big css
        = Except.ok pv) ↔
      receiverCommitment = big.foldl receiver.QRSpecialRSA.Mul 1) ∧
    (receiverCommitment = big.foldl receiver.QRSpecialRSA.Mul 1 →
      NewPositiveVerifier nsv receiver receiverCommitment small big css
        = Except.ok ⟨(big.zip small).map
            (fun bc => nsv { receiver with Commitment := bc.1 } bc.2 css)⟩) := by
  have hprod : productLoop receiver.QRSpecialRSA small.length big 1
      = Except.ok (big.foldl receiver.QRSpecialRSA.Mul 1) := by
    rw [← hlen]
    exact productLoop_ok receiver.QRSpecialRSA big 1
  simp only [NewPositiveVerifier, hprod]
  rw [if_pos hlen]
  by_cases hc : receiverCommitment = big.foldl receiver.QRSpecialRSA.Mul 1
  · rw [if_neg (not_ne_iff.mpr hc)]
    constructor
    · exact iff_of_true ⟨_, rfl⟩ hc
    · intro _
      rw [List.zip_map_left, List.map_map]
      rfl
  · rw [if_pos hc]
    constructor
    · refine iff_of_false ?_ hc
      rintro ⟨pv, hpv⟩
      exact Except.noConfusion hpv
    · intro hcc
      exact absurd hcc hc

theorem newPositiveVerifier_product_check_witness :
    ∃ pv, NewPositiveVerifier (fun _ _ _ => svT) rcvA 4 [7, 9] [3, 5] 4
      = Except.ok pv :=
  (newPositiveVerifier_product_check (fun _ _ _ => svT) rcvA 4 [7, 9] [3, 5] 4
    rfl).1.mpr (by decide)

/-- C10: `PositiveVerifier.SetProofRandomData` returns a non-nil error
exactly when the slice length differs from 8, and on the error path the
verifier state is unchanged: no sub-verifier's proof random data is
touched. -/
theorem positiveVerifier_setProofRandomData_check (v : PositiveVerifier)
    (prd : List Int) (hv : v.squareVerifiers.length ≤ 4) :
    ((v.SetProofRandomData prd).2 ≠ none ↔ prd.length ≠ 8) ∧
    (prd.length ≠ 8 →
      v.SetProofRandomData prd
        = (v, some (GoFail.errReturn "the length of proofRandomData is not correct"))) := by
  by_cases h8 : prd.length = 8
  · obtain ⟨svs2, hok, -, -⟩ := setPrdLoop_ok prd v.squareVerifiers 0 (by omega)
    unfold PositiveVerifier.SetProofRandomData
    rw [if_neg (not_ne_iff.mpr h8), hok]
    exact ⟨by simp [h8], fun hc => absurd h8 hc⟩
  · unfold PositiveVerifier.SetProofRandomData
    rw [if_pos h8]
    exact ⟨by simp [h8], fun _ => rfl⟩

theorem positiveVerifier_setProofRandomData_check_witness :
    v4T.SetProofRandomData [1, 2, 3]
      = (v4T, some (GoFail.errReturn "the length of proofRandomData is not correct")) :=
  (positiveVerifier_setProofRandomData_check v4T [1, 2, 3] (by decide)).2 (by decide)

/-! ### Helper lemmas for the verification loop and the flattened layouts -/

lemma pvLoop_false (pd : List Int) :
    ∀ (i : Nat) (svs : List SquareVerifier),
      pvLoop pd i svs false = (Except.ok false, [])
  | _, [] => rfl
  | i, _ :: rest => by
      simp only [pvLoop, Bool.false_eq_true, if_false]
      exact pvLoop_false pd (i + 1) rest

lemma pvLoop_ok_true_iff (pd : List Int) (svs : List SquareVerifier) :
    ∀ (i : Nat), 3 * (i + svs.length) ≤ pd.length →
      ((pvLoop pd i svs true).1 = Except.ok true ↔
        ∀ j sv, svs[j]? = some sv → svAcceptsAt pd (i + j) sv) := by
  induction svs with
  | nil =>
      intro i _
      refine iff_of_true rfl ?_
      intro j sv hj
      simp at hj
  | cons sv rest ih =>
      intro i h
      have hlen : 3 * (i + (rest.length + 1)) ≤ pd.length := by simpa using h
      have h0 : 3 * i < pd.length := by omega
      have h1 : 3 * i + 1 < pd.length := by omega
      have h2 : 3 * i + 2 < pd.length := by omega
      have ha : pd[3 * i]? = some pd[3 * i] := List.getElem?_eq_getElem h0
      have hb : pd[3 * i + 1]? = some pd[3 * i + 1] := List.getElem?_eq_getElem h1
      have hc : pd[3 * i + 2]? = some pd[3 * i + 2] := List.getElem?_eq_getElem h2
      simp only [pvLoop, eq_self_iff_true, if_true, ha, hb, hc]
      cases hv : sv.Verify pd[3 * i] pd[3 * i + 1] pd[3 * i + 2] with
      | true =>
          have ihh := ih (i + 1) (by omega)
          constructor
          · intro hok j sv2 hj
            rcases j with _ | j
            · simp only [List.getElem?_cons_zero, Option.some.injEq] at hj
              subst hj
              refine ⟨pd[3 * i], pd[3 * i + 1], pd[3 * i + 2], ?_, ?_, ?_, hv⟩
              · simp
              · simp
              · simp
            · simp only [List.getElem?_cons_succ] at hj
              have hres := (ihh.mp hok) j sv2 hj
              have hsh : i + (j + 1) = i + 1 + j := by omega
              rw [hsh]
              exact hres
          · intro hall
            apply ihh.mpr
            intro j sv2 hj
            have hsh : i + (j + 1) = i + 1 + j := by omega
            have hres := hall (j + 1) sv2 (by simpa using hj)
            rw [hsh] at hres
            exact hres
      | false =>
          rw [pvLoop_false pd (i + 1) rest]
          refine iff_of_false (by simp) ?_
          intro hall
          have hacc0 := hall 0 sv (by simp)
          simp only [svAcceptsAt, Nat.add_zero] at hacc0
          obtain ⟨a2, b2, c2, ha2, hb2, hc2, hacc⟩ := hacc0
          rw [ha, Option.some.injEq] at ha2
          rw [hb, Option.some.injEq] at hb2
          rw [hc, Option.some.injEq] at hc2
          subst ha2
          subst hb2
          subst hc2
          rw [hv] at hacc
          exact Bool.noConfusion hacc

lemma pvLoop_trace_args (pd : List Int) :
    ∀ (svs : List SquareVerifier) (i : Nat) (verified : Bool),
      ∀ e ∈ (pvLoop pd i svs verified).2,
        pd[3 * e.1]? = some e.2.1 ∧ pd[3 * e.1 + 1]? = some e.2.2.1 ∧
          pd[3 * e.1 + 2]? = some e.2.2.2
  | [], _, _ => by
      intro e he
      simp [pvLoop] at he
  | sv :: rest, i, verified => by
      intro e he
      cases verified with
      | false =>
          rw [pvLoop_false] at he
          simp at he
      | true =>
          simp only [pvLoop, eq_self_iff_true, if_true] at he
          rcases hga : pd[3 * i]? with _ | a
          · rw [hga] at he; simp at he
          · rcases hgb : pd[3 * i + 1]? with _ | b
            · rw [hga, hgb] at he; simp at he
            · rcases hgc : pd[3 * i + 2]? with _ | c
              · rw [hga, hgb, hgc] at he; simp at he
              · rw [hga, hgb, hgc] at he
                simp only [List.mem_cons] at he
                rcases he with rfl | he
                · exact ⟨hga, hgb, hgc⟩
                · exact pvLoop_trace_args pd rest (i + 1) (sv.Verify a b c) e he

lemma pvLoop_prefix_accept (pd : List Int) :
    ∀ (svs : List SquareVerifier) (i : Nat),
      ∀ e ∈ (pvLoop pd i svs true).2, ∀ k sv2, i ≤ k → k < e.1 →
        svs[k - i]? = some sv2 → svAcceptsAt pd k sv2
  | [], _ => by
      intro e he
      simp [pvLoop] at he
  | sv :: rest, i => by
      intro e he k sv2 hik hke hkv
      simp only [pvLoop, eq_self_iff_true, if_true] at he
      rcases hga : pd[3 * i]? with _ | a
      · rw [hga] at he; simp at he
      · rcases hgb : pd[3 * i + 1]? with _ | b
        · rw [hga, hgb] at he; simp at he
        · rcases hgc : pd[3 * i + 2]? with _ | c
          · rw [hga, hgb, hgc] at he; simp at he
          · rw [hga, hgb, hgc] at he
            simp only [List.mem_cons] at he
            rcases he with rfl | he
            · omega
            · cases hv : sv.Verify a b c with
              | false =>
                  rw [hv, pvLoop_false pd (i + 1) rest] at he
                  simp at he
              | true =>
                  rw [hv] at he
                  rcases Nat.eq_or_lt_of_le hik with heq | hik2
                  · rw [← heq] at hkv ⊢
                    rw [Nat.sub_self, List.getElem?_cons_zero, Option.some.injEq] at hkv
                    subst hkv
                    exact ⟨a, b, c, hga, hgb, hgc, hv⟩
                  · have hsh : k - i = (k - (i + 1)) + 1 := by omega
                    rw [hsh, List.getElem?_cons_succ] at hkv
                    exact pvLoop_prefix_accept pd rest (i + 1) e he k sv2
                      (by omega) hke hkv

lemma flattenPairs_length : ∀ sps : List SquareProver,
    (flattenPairs sps).length = 2 * sps.length
  | [] => rfl
  | _ :: rest => by
      simp only [flattenPairs, List.length_cons, flattenPairs_length rest]
      omega

lemma flattenPairs_layout : ∀ (sps : List SquareProver) (j : Nat) (sp : SquareProver),
    sps[j]? = some sp →
      (flattenPairs sps)[2 * j]? = some sp.proofRandomData1 ∧
      (flattenPairs sps)[2 * j + 1]? = some sp.proofRandomData2
  | [], j, sp => by
      intro hj
      simp at hj
  | sp0 :: rest, 0, sp => by
      intro hj
      simp only [List.getElem?_cons_zero, Option.some.injEq] at hj
      subst hj
      exact ⟨by simp [flattenPairs], by simp [flattenPairs]⟩
  | sp0 :: rest, j + 1, sp => by
      intro hj
      simp only [List.getElem?_cons_succ] at hj
      have ih := flattenPairs_layout rest j sp hj
      have e1 : 2 * (j + 1) = 2 * j + 1 + 1 := by omega
      have e2 : 2 * (j + 1) + 1 = 2 * j + 1 + 1 + 1 := by omega
      constructor
      · rw [e1]
        simp only [flattenPairs, List.getElem?_cons_succ]
        exact ih.1
      · rw [e2]
        simp only [flattenPairs, List.getElem?_cons_succ]
        exact ih.2

lemma posProofDataLoop_ok : ∀ (sps : List SquareProver) (chs : List Int),
    sps.length ≤ chs.length →
    ∃ out, posProofDataLoop sps chs = Except.ok out ∧
      out.length = 3 * sps.length ∧
      ∀ j sp, sps[j]? = some sp →
        ∃ ch, chs[j]? = some ch ∧
          out[3 * j]? = some (sp.proofDataFn ch).1 ∧
          out[3 * j + 1]? = some (sp.proofDataFn ch).2.1 ∧
          out[3 * j + 2]? = some (sp.proofDataFn ch).2.2
  | [], _, _ => ⟨[], rfl, rfl, by intro j sp hj; simp at hj⟩
  | sp :: rest, [], h => by simp at h
  | sp :: rest, ch :: chs, h => by
      obtain ⟨out, hout, hlen3, hidx⟩ := posProofDataLoop_ok rest chs (by simpa using h)
      refine ⟨(sp.proofDataFn ch).1 :: (sp.proofDataFn ch).2.1 ::
          (sp.proofDataFn ch).2.2 :: out, ?_,
        by simp only [List.length_cons, hlen3]; omega, ?_⟩
      · simp only [posProofDataLoop, hout]
      · intro j sp2 hj
        rcases j with _ | j
        · simp only [List.getElem?_cons_zero, Option.some.injEq] at hj
          subst hj
          exact ⟨ch, by simp, by simp, by simp, by simp⟩
        · simp only [List.getElem?_cons_succ] at hj
          obtain ⟨ch2, hch2, g1, g2, g3⟩ := hidx j sp2 hj
          have e1 : 3 * (j + 1) = 3 * j + 1 + 1 + 1 := by omega
          have e2 : 3 * (j + 1) + 1 = 3 * j + 1 + 1 + 1 + 1 := by omega
          have e3 : 3 * (j + 1) + 2 = 3 * j + 2 + 1 + 1 + 1 := by omega
          refine ⟨ch2, by simpa using hch2, ?_, ?_, ?_⟩
          · rw [e1]
            simp only [List.getElem?_cons_succ]
            exact g1
          · rw [e2]
            simp only [List.getElem?_cons_succ]
            exact g2
          · rw [e3]
            simp only [List.getElem?_cons_succ]
            exact g3

/-! ### Claims C2 and C8 -/

/-- C2 counterexample: with the first sub-verifier rejecting, the Go
short-circuit `&&` skips the remaining three sub-verifiers.  On a concrete
12-element input the evaluation trace contains only the invocation of
sub-verifier 0, refuting that every sub-verifier's `Verify` is evaluated
even after one has returned false (the overall result is still `false`). -/
theorem positiveVerifier_short_circuit_cex :
    ((PositiveVerifier.mk [svF, svT, svT, svT]).VerifyTrace pd12).1 = Except.ok false ∧
    ((PositiveVerifier.mk [svF, svT, svT, svT]).VerifyTrace pd12).2.map
      (fun e => e.1) = [0] ∧
    ((PositiveVerifier.mk [svF, svT, svT, svT]).VerifyTrace pd12).2.map
      (fun e => e.1) ≠ [0, 1, 2, 3] := by
  have heq : ((PositiveVerifier.mk [svF, svT, svT, svT]).VerifyTrace pd12).2.map
      (fun e => e.1) = [0] := rfl
  refine ⟨rfl, heq, ?_⟩
  rw [heq]
  decide

/-- C2 (amended): `PositiveVerifier.Verify` returns false for every slice
whose length is not 12; for a 12-element slice it returns true if and only
if all four square sub-verifications accept, but the conjunction is Go's
short-circuit `&&`: a sub-verifier is invoked only when all earlier
sub-verifiers accepted, so sub-verifiers after the first failure are not
evaluated. -/
theorem positiveVerifier_verify_amended (v : PositiveVerifier) (pd : List Int)
    (hn : v.squareVerifiers.length = 4) :
    (pd.length ≠ 12 → (v.VerifyTrace pd).1 = Except.ok false) ∧
    (pd.length = 12 →
      ((v.VerifyTrace pd).1 = Except.ok true ↔
        ∀ j sv, v.squareVerifiers[j]? = some sv → svAcceptsAt pd j sv)) ∧
    (∀ e ∈ (v.VerifyTrace pd).2, ∀ k sv, k < e.1 →
      v.squareVerifiers[k]? = some sv → svAcceptsAt pd k sv) := by
  refine ⟨?_, ?_, ?_⟩
  · intro h12
    unfold PositiveVerifier.VerifyTrace
    rw [if_pos h12]
  · intro h12
    unfold PositiveVerifier.VerifyTrace
    rw [if_neg (not_ne_iff.mpr h12)]
    have hiff := pvLoop_ok_true_iff pd v.squareVerifiers 0 (by omega)
    simpa using hiff
  · intro e he k sv hk hsv
    unfold PositiveVerifier.VerifyTrace at he
    by_cases h12 : pd.length ≠ 12
    · rw [if_pos h12] at he
      simp at he
    · rw [if_neg h12] at he
      exact pvLoop_prefix_accept pd v.squareVerifiers 0 e he k sv
        (Nat.zero_le k) hk (by simpa using hsv)

theorem positiveVerifier_verify_amended_witness :
    (v4T.VerifyTrace pd12).1 = Except.ok true := by
  refine ((positiveVerifier_verify_amended v4T pd12 rfl).2.1 rfl).mpr ?_
  intro j sv hj
  rcases j with _ | _ | _ | _ | j
  · simp only [v4T, svT, List.getElem?_cons_zero, Option.some.injEq] at hj
    subst hj
    exact ⟨0, 1, 2, rfl, rfl, rfl, rfl⟩
  · simp only [v4T, svT, List.getElem?_cons_succ, List.getElem?_cons_zero,
      Option.some.injEq] at hj
    subst hj
    exact ⟨3, 4, 5, rfl, rfl, rfl, rfl⟩
  · simp only [v4T, svT, List.getElem?_cons_succ, List.getElem?_cons_zero,
      Option.some.injEq] at hj
    subst hj
    exact ⟨6, 7, 8, rfl, rfl, rfl, rfl⟩
  · simp only [v4T, svT, List.getElem?_cons_succ, List.getElem?_cons_zero,
      Option.some.injEq] at hj
    subst hj
    exact ⟨9, 10, 11, rfl, rfl, rfl, rfl⟩
  · simp [v4T] at hj

/-- Square prover fixture. -/
def spA : SquareProver := ⟨1, 2, fun ch => (ch, ch + 1, ch + 2)⟩

/-- Second square prover fixture. -/
def spB : SquareProver := ⟨3, 4, fun ch => (2 * ch, ch, ch - 1)⟩

/-- C8: the flattened layouts are mirrored on both sides:
`PositiveProver.GetProofRandomData` places sub-proof `i`'s two outputs at
positions `2i` and `2i+1`; `PositiveProver.GetProofData` places sub-proof
`i`'s three outputs at `3i`, `3i+1`, `3i+2`;
`PositiveVerifier.SetProofRandomData` hands sub-verifier `i` elements `2i`
and `2i+1`; and every sub-verification performed by
`PositiveVerifier.Verify` reads exactly elements `3i`, `3i+1`, `3i+2`. -/
theorem positive_flatten_layout (p : PositiveProver) (v : PositiveVerifier)
    (challenges prd pd : List Int)
    (hch : p.squareProvers.length ≤ challenges.length)
    (hprd : prd.length = 8) (hv : v.squareVerifiers.length ≤ 4) :
    (p.GetProofRandomData.length = 2 * p.squareProvers.length ∧
     ∀ j sp, p.squareProvers[j]? = some sp →
       p.GetProofRandomData[2 * j]? = some sp.proofRandomData1 ∧
       p.GetProofRandomData[2 * j + 1]? = some sp.proofRandomData2) ∧
    (∃ out, p.GetProofData challenges = Except.ok out ∧
      out.length = 3 * p.squareProvers.length ∧
      ∀ j sp, p.squareProvers[j]? = some sp →
        ∃ ch, challenges[j]? = some ch ∧
          out[3 * j]? = some (sp.proofDataFn ch).1 ∧
          out[3 * j + 1]? = some (sp.proofDataFn ch).2.1 ∧
          out[3 * j + 2]? = some (sp.proofDataFn ch).2.2) ∧
    ((v.SetProofRandomData prd).2 = none ∧
     ∀ j sv, v.squareVerifiers[j]? = some sv →
       ∃ a b, prd[2 * j]? = some a ∧ prd[2 * j + 1]? = some b ∧
         (v.SetProofRandomData prd).1.squareVerifiers[j]?
           = some (sv.SetProofRandomData a b)) ∧
    (∀ e ∈ (v.VerifyTrace pd).2,
      pd[3 * e.1]? = some e.2.1 ∧ pd[3 * e.1 + 1]? = some e.2.2.1 ∧
        pd[3 * e.1 + 2]? = some e.2.2.2) := by
  obtain ⟨svs2, hok, hsl, hsidx⟩ := setPrdLoop_ok prd v.squareVerifiers 0 (by omega)
  have hset : v.SetProofRandomData prd = (⟨svs2⟩, none) := by
    unfold PositiveVerifier.SetProofRandomData
    rw [if_neg (not_ne_iff.mpr hprd), hok]
  refine ⟨⟨flattenPairs_length p.squareProvers, ?_⟩, ?_, ⟨by rw [hset], ?_⟩, ?_⟩
  · intro j sp hj
    exact flattenPairs_layout p.squareProvers j sp hj
  · exact posProofDataLoop_ok p.squareProvers challenges hch
  · intro j sv hj
    obtain ⟨a, b, hpa, hpb, hj2⟩ := hsidx j sv hj
    rw [hset]
    exact ⟨a, b, by simpa using hpa, by simpa using hpb, hj2⟩
  · intro e he
    unfold PositiveVerifier.VerifyTrace at he
    by_cases h12 : pd.length ≠ 12
    · rw [if_pos h12] at he
      simp at he
    · rw [if_neg h12] at he
      exact pvLoop_trace_args pd v.squareVerifiers 0 true e he

theorem positive_flatten_layout_witness :
    (v4T.SetProofRandomData [1, 2, 3, 4, 5, 6, 7, 8]).2 = none :=
  ((positive_flatten_layout (PositiveProver.mk [spA, spB, spA, spB] [] [])
      v4T [1, 1, 1, 1] [1, 2, 3, 4, 5, 6, 7, 8] pd12 (by decide) rfl
      (by decide)).2.2.1).1

end Crypto
